import Mathlib

/-!
Verification of `Nook/restore.py`.

A shallow embedding of the core of the restore tool: the Temporal Selector
(the entry-selection loop of `main`, lines 224-239), the Destination Placer
(`DestPlacer.choose_dest` and `common_suffix_len`, lines 76-153), the
record-loading loop (`load_json` and `main` lines 199-205), and the
place/mkdir/write step of the orchestrator (lines 260-273).

Resolved absolute POSIX paths are modelled as lists of their segments below
the root: `/old/a/f.txt` is `["old", "a", "f.txt"]` and the root `/` is `[]`.
Joining a root with a relative remainder is list append; the empty remainder
(Python's `Path(".")`, whose components vanish when joined) appends nothing.
-/

/-- One element of a record's `entries` list.  The selection loop of `main`
consults only the `timestamp` field; `none` models an absent or null
timestamp in the underlying JSON object (`e.get("timestamp", None)`). -/
structure Entry where
  timestamp : Option Int
deriving DecidableEq

/-- The sort key of line 225, `lambda e: e.get("timestamp", 0)`: a missing
timestamp defaults to `0`. -/
def sortKey (e : Entry) : Int := e.timestamp.getD 0

/-- The comparison realised by Python's ascending sort by `sortKey`. -/
def entryLE (a b : Entry) : Prop := sortKey a ≤ sortKey b

instance : DecidableRel entryLE := fun a b => Int.decLe (sortKey a) (sortKey b)

instance : IsTotal Entry entryLE := ⟨fun a b => Int.le_total (sortKey a) (sortKey b)⟩

instance : IsTrans Entry entryLE := ⟨fun _ _ _ hab hbc => Int.le_trans hab hbc⟩

/-- Line 225, `sorted(data["entries"], key=lambda e: e.get("timestamp", 0))`.
Python's `sorted` is a stable ascending sort by the key; `List.insertionSort`
with `entryLE` computes the same stable sort (earlier input elements stay
before later ones of equal key). -/
def sortEntries (es : List Entry) : List Entry := List.insertionSort entryLE es

/-- The window predicate of line 233:
`(after_ms is None or ts >= after_ms) and (before_ms is None or ts < before_ms)`. -/
def inWindow (afterMs beforeMs : Option Int) (ts : Int) : Bool :=
  (match afterMs with
   | none => true
   | some a => decide (a ≤ ts)) &&
  (match beforeMs with
   | none => true
   | some b => decide (ts < b))

/-- The scan of lines 228-235: walk the given (already reversed, so
newest-first) entry list, skip entries whose timestamp is `None`, and stop at
the first entry whose timestamp satisfies the window. -/
def scanPick (afterMs beforeMs : Option Int) : List Entry → Option Entry
  | [] => none
  | { timestamp := none } :: rest => scanPick afterMs beforeMs rest
  | { timestamp := some ts } :: rest =>
    if inWindow afterMs beforeMs ts then some { timestamp := some ts }
    else scanPick afterMs beforeMs rest

/-- The Temporal Selector of `main` (lines 224-239): sort the entries
ascending by key, then scan them from newest to oldest (`reversed(entries)`)
for the first entry inside the window. -/
def select (afterMs beforeMs : Option Int) (es : List Entry) : Option Entry :=
  scanPick afterMs beforeMs (sortEntries es).reverse

/-- `path.name` of `pathlib`: the last segment of an absolute path, and `""`
for the root. -/
def pathName (p : List String) : String := p.getLast?.getD ""

/-- Helper realising the loop of `common_suffix_len` on reversed inputs: the
loop compares `a_parts[-i] == b_parts[-i]` for `i = 1, 2, ...` until the first
mismatch, which is the longest common prefix of the reversed lists. -/
def common_prefix_len : List String → List String → Nat
  | a :: as, b :: bs => if a = b then common_prefix_len as bs + 1 else 0
  | _, _ => 0

/-- `common_suffix_len(a_parts, b_parts)` of restore.py lines 76-82. -/
def common_suffix_len (a b : List String) : Nat :=
  common_prefix_len a.reverse b.reverse

/-- The parts list built at lines 128-129 and 134-135:
`[q.name for q in list(path.parents)[:-1]] + [path.name]`.
`list(path.parents)[:-1]` is the list of proper ancestors nearest-first with
the root dropped, so its names are the directory segments of `path` in
reversed order, to which the filename is appended. -/
def partsOf (p : List String) : List String :=
  p.dropLast.reverse ++ [pathName p]

/-- Line 137, `score = (suffix_len, -len(cand_parts))`. -/
def tier2_score (src_parts : List String) (cand : List String) : Int × Int :=
  ((common_suffix_len src_parts (partsOf cand) : Int), -((partsOf cand).length : Int))

/-- Python's lexicographic tuple comparison `score > best_score` (line 138). -/
def scoreGtB (a b : Int × Int) : Bool :=
  decide (b.1 < a.1) || (decide (a.1 = b.1) && decide (b.2 < a.2))

/-- One iteration of the `for cand in candidates` loop (lines 133-140). -/
def tier2_step (src_parts : List String)
    (acc : Option (List String) × (Int × Int)) (cand : List String) :
    Option (List String) × (Int × Int) :=
  if scoreGtB (tier2_score src_parts cand) acc.2 then
    (some cand, tier2_score src_parts cand)
  else acc

/-- The whole candidate loop, started from `best = None` and
`best_score = (-1, -1)` (lines 130-140). -/
def tier2_best (src_parts : List String) (cands : List (List String)) :
    Option (List String) × (Int × Int) :=
  cands.foldl (tier2_step src_parts) (none, (-1, -1))

/-- The Destination Placer's state: the resolved source root and destination
root fixed by `__init__`, and the files that `os.walk(restore_to)` yields (in
walk order) from which `_build_index` builds the filename index. -/
structure DestPlacer where
  restore_from : List String
  restore_to : List String
  walkFiles : List (List String)
deriving DecidableEq

/-- `_build_index` / `_index_candidates` (lines 103-113): the filename index
maps a base name to the walk-order list of destination files bearing it. -/
def DestPlacer.index_candidates (P : DestPlacer) (fn : String) : List (List String) :=
  P.walkFiles.filter (fun p => pathName p == fn)

/-- The outcome of tier 2 (lines 125-143): `some best` exactly when the
acceptance check `best is not None and best_score[0] > 0` passes, in which
case `choose_dest` returns `best` (overwriting that candidate in place). -/
def tier2_result (P : DestPlacer) (src : List String) : Option (List String) :=
  match (tier2_best (partsOf src) (P.index_candidates (pathName src))).1 with
  | some best =>
    if (0 : Int) < (tier2_best (partsOf src) (P.index_candidates (pathName src))).2.1
    then some best
    else none
  | none => none

/-- Tiers 3 and 4 (lines 145-153).  `src_path.parts` starts with the root
marker `"/"` followed by the segments; the first segment equal to the source
root's folder name anchors the relative remainder, which is re-rooted under
`restore_to`; if the anchor is the last part, or no part matches, the bare
filename is dropped under `restore_to`. -/
def tier34 (P : DestPlacer) (src : List String) : List String :=
  match ("/" :: src).findIdx? (fun s => s == pathName P.restore_from) with
  | some i =>
    if i + 1 < ("/" :: src).length then P.restore_to ++ ("/" :: src).drop (i + 1)
    else P.restore_to ++ [pathName src]
  | none => P.restore_to ++ [pathName src]

/-- `DestPlacer.choose_dest` (lines 115-153).  Tier 1: `relative_to` succeeds
exactly when `restore_from` is a segment prefix of `src`, and
`restore_to / rel` appends the remaining segments (an empty remainder, for
`src` equal to the root itself, is Python's `Path(".")`, which contributes no
segments when joined).  Tier 2 is `tier2_result`; on `none` control falls
through to tiers 3 and 4. -/
def DestPlacer.choose_dest (P : DestPlacer) (src : List String) : List String :=
  if P.restore_from.isPrefixOf src then
    P.restore_to ++ src.drop P.restore_from.length
  else
    match tier2_result P src with
    | some best => best
    | none => tier34 P src

/-- The shape of one parsed `entries.json` value as the loading loop of
`main` (lines 199-205) inspects it: whether the whole value is falsy
(`if not data`, e.g. an empty object), and its optional `resource` and
`entries` fields. -/
structure RecordData where
  falsy : Bool
  resource : Option String
  entries : Option (List Entry)
deriving DecidableEq

/-- What `load_json` (lines 58-66) can encounter for one file: the file is
missing (`FileNotFoundError`, returns `None` silently), the JSON does not
parse (`JSONDecodeError`, warns and returns `None`), or a value is parsed. -/
inductive RawRecord where
  | notFound
  | parseError
  | parsed (d : RecordData)
deriving DecidableEq

/-- Lines 201-204: a parsed record is kept only when the value is truthy,
both `"entries"` and `"resource"` fields exist, and the entries list is
non-empty; otherwise the loop `continue`s with no warning. -/
def record_admitted (d : RecordData) : Bool :=
  !(d.falsy || d.entries.isNone || d.resource.isNone) && !(d.entries.getD []).isEmpty

/-- Test for the one case in which `load_json` prints a `[warn]` line. -/
def is_parse_error : RawRecord → Bool
  | RawRecord.parseError => true
  | _ => false

/-- The record-loading loop of `main` (lines 198-205) over `load_json`
(lines 58-66): returns the kept records in order together with the number of
warnings printed.  `load_json` yields `None` silently for a missing file and
`None` with a `[warn]` line for a JSON parse error; a parsed record is kept
exactly when `record_admitted` holds, and is otherwise skipped silently. -/
def load_history_records : List RawRecord → List RecordData × Nat
  | [] => ([], 0)
  | RawRecord.notFound :: rest => load_history_records rest
  | RawRecord.parseError :: rest =>
    ((load_history_records rest).1, (load_history_records rest).2 + 1)
  | RawRecord.parsed d :: rest =>
    if record_admitted d then
      (d :: (load_history_records rest).1, (load_history_records rest).2)
    else load_history_records rest

/-- A filesystem mutation performed by the per-file loop of `main`. -/
inductive FsEffect where
  | mkdirP (p : List String)
  | write (p : List String) (text : String)
deriving DecidableEq

/-- Whether an effect writes file contents. -/
def FsEffect.isWrite : FsEffect → Bool
  | FsEffect.write _ _ => true
  | _ => false

/-- One `<ACTION>: <src> -> <dest>` console line (line 272). -/
structure Report where
  action : String
  src : List String
  dest : List String
deriving DecidableEq

/-- Lines 260-272 for one file whose entry was selected and whose blob was
read as `text`: compute the destination, unconditionally create its parent
directory (`dest_path.parent.mkdir(parents=True, exist_ok=True)`), write the
text only when not in dry-run mode, and report the action taken. -/
def place_one (dryRun : Bool) (P : DestPlacer) (src : List String) (text : String) :
    List FsEffect × Report :=
  (FsEffect.mkdirP (P.choose_dest src).dropLast ::
     (if dryRun then [] else [FsEffect.write (P.choose_dest src) text]),
   { action := if dryRun then "WOULD_RESTORE" else "RESTORED",
     src := src,
     dest := P.choose_dest src })

/-- The per-file loop of `main` (lines 214-273) restricted to selection and
placement: each input carries the resolved historical path, the record's
entry list and the content text of whichever entry would be chosen; a file
whose window selects no entry is skipped, every other file goes through
`place_one`.  Returns all filesystem effects and all report lines. -/
def run_pass (dryRun : Bool) (P : DestPlacer) (afterMs beforeMs : Option Int) :
    List (List String × List Entry × String) → List FsEffect × List Report
  | [] => ([], [])
  | item :: rest =>
    match select afterMs beforeMs item.2.1 with
    | none => run_pass dryRun P afterMs beforeMs rest
    | some _ =>
      ((place_one dryRun P item.1 item.2.2).1 ++
         (run_pass dryRun P afterMs beforeMs rest).1,
       (place_one dryRun P item.1 item.2.2).2 ::
         (run_pass dryRun P afterMs beforeMs rest).2)

/-- Helper: an entry returned by the scan is in the scanned list, has a
present timestamp, and that timestamp satisfies the window. -/
theorem scanPick_some_spec {a b : Option Int} {l : List Entry} {e : Entry}
    (h : scanPick a b l = some e) :
    e ∈ l ∧ ∃ ts, e.timestamp = some ts ∧ inWindow a b ts = true := by
  induction l with
  | nil => simp [scanPick] at h
  | cons x l ih =>
    obtain ⟨tx⟩ := x
    cases tx with
    | none =>
      rw [scanPick] at h
      rcases ih h with ⟨hm, hrest⟩
      exact ⟨List.mem_cons_of_mem _ hm, hrest⟩
    | some ts =>
      rw [scanPick] at h
      split at h
      · cases h
        exact ⟨List.mem_cons_self _ _, ts, rfl, by assumption⟩
      · rcases ih h with ⟨hm, hrest⟩
        exact ⟨List.mem_cons_of_mem _ hm, hrest⟩

/-- Helper: the scan returns `none` exactly when no entry of the list has a
timestamp that satisfies the window. -/
theorem scanPick_none_iff {a b : Option Int} {l : List Entry} :
    scanPick a b l = none ↔
      ∀ e ∈ l, ∀ ts, e.timestamp = some ts → inWindow a b ts = false := by
  induction l with
  | nil => simp [scanPick]
  | cons x l ih =>
    obtain ⟨tx⟩ := x
    cases tx with
    | none =>
      rw [scanPick, ih]
      constructor
      · intro h e he ts hts
        rcases List.mem_cons.mp he with rfl | he'
        · cases hts
        · exact h e he' ts hts
      · intro h e he ts hts
        exact h e (List.mem_cons_of_mem _ he) ts hts
    | some ts =>
      rw [scanPick]
      constructor
      · intro h e he ts' hts'
        split at h
        next => cases h
        next hw =>
          rcases List.mem_cons.mp he with rfl | he'
          · cases hts'
            exact Bool.eq_false_iff.mpr hw
          · exact ih.mp h e he' ts' hts'
      · intro h
        have hw : inWindow a b ts = false :=
          h { timestamp := some ts } (List.mem_cons_self _ _) ts rfl
        rw [if_neg (by simp [hw])]
        exact ih.mpr fun e he ts' hts' => h e (List.mem_cons_of_mem _ he) ts' hts'

/-- Helper: on a list sorted newest-first by key, the entry returned by the
scan carries the maximum timestamp among all qualifying entries. -/
theorem scanPick_max {a b : Option Int} {l : List Entry} {e : Entry} {ts : Int}
    (hs : l.Pairwise (fun x y => sortKey y ≤ sortKey x))
    (h : scanPick a b l = some e) (hts : e.timestamp = some ts) :
    ∀ e' ∈ l, ∀ ts', e'.timestamp = some ts' → inWindow a b ts' = true → ts' ≤ ts := by
  induction l with
  | nil => simp [scanPick] at h
  | cons x l ih =>
    rcases List.pairwise_cons.mp hs with ⟨hhead, htail⟩
    obtain ⟨tx⟩ := x
    cases tx with
    | none =>
      rw [scanPick] at h
      intro e' he' ts' hts' hw'
      rcases List.mem_cons.mp he' with rfl | he'
      · cases hts'
      · exact ih htail h e' he' ts' hts' hw'
    | some t =>
      rw [scanPick] at h
      split at h
      · cases h
        cases hts
        intro e' he' ts' hts' hw'
        rcases List.mem_cons.mp he' with rfl | he'
        · cases hts'
          exact le_refl _
        · have hk := hhead e' he'
          have hk' : sortKey e' = ts' := by simp [sortKey, hts']
          have hkt : sortKey { timestamp := some ts } = ts := by simp [sortKey]
          rw [hk', hkt] at hk
          exact hk
      · intro e' he' ts' hts' hw'
        rcases List.mem_cons.mp he' with rfl | he'
        · cases hts'
          exact absurd hw' (by assumption)
        · exact ih htail h e' he' ts' hts' hw'

/-- Helper: membership in the sorted-then-reversed entry list is membership in
the original list. -/
theorem mem_sortEntries_reverse {es : List Entry} {e : Entry} :
    e ∈ (sortEntries es).reverse ↔ e ∈ es := by
  rw [List.mem_reverse]
  exact (List.perm_insertionSort entryLE es).mem_iff

/-- Helper: the sorted-then-reversed entry list is ordered newest-first. -/
theorem sortEntries_reverse_pairwise (es : List Entry) :
    ((sortEntries es).reverse).Pairwise (fun x y => sortKey y ≤ sortKey x) := by
  rw [List.pairwise_reverse]
  exact List.sorted_insertionSort entryLE es

/-- Helper: everything `select` guarantees about a returned entry: it is one
of the given entries, its timestamp is present and in the window, and no
qualifying entry has a strictly larger timestamp. -/
theorem select_some_spec {a b : Option Int} {es : List Entry} {e : Entry}
    (h : select a b es = some e) :
    e ∈ es ∧ ∃ ts, e.timestamp = some ts ∧ inWindow a b ts = true ∧
      ∀ e' ∈ es, ∀ ts', e'.timestamp = some ts' → inWindow a b ts' = true → ts' ≤ ts := by
  unfold select at h
  rcases scanPick_some_spec h with ⟨hm, ts, hts, hw⟩
  refine ⟨mem_sortEntries_reverse.mp hm, ts, hts, hw, ?_⟩
  intro e' he' ts' hts' hw'
  exact scanPick_max (sortEntries_reverse_pairwise es) h hts e'
    (mem_sortEntries_reverse.mpr he') ts' hts' hw'

/-- Helper: `select` returns `none` exactly when no entry qualifies. -/
theorem select_none_iff {a b : Option Int} {es : List Entry} :
    select a b es = none ↔
      ∀ e ∈ es, ∀ ts, e.timestamp = some ts → inWindow a b ts = false := by
  unfold select
  rw [scanPick_none_iff]
  constructor
  · intro h e he ts hts
    exact h e (mem_sortEntries_reverse.mpr he) ts hts
  · intro h e he ts hts
    exact h e (mem_sortEntries_reverse.mp he) ts hts

/-- Helper: when `score > best_score` holds, the new first component is at
least the old one. -/
theorem scoreGtB_fst_le {s t : Int × Int} (h : scoreGtB s t = true) : t.1 ≤ s.1 := by
  unfold scoreGtB at h
  rw [Bool.or_eq_true] at h
  rcases h with h1 | h2
  · exact le_of_lt (of_decide_eq_true h1)
  · rw [Bool.and_eq_true] at h2
    exact le_of_eq (of_decide_eq_true h2.1).symm

/-- Helper: the candidate loop only ever returns a candidate it has seen (or
whatever its accumulator already held). -/
theorem tier2_foldl_mem {sp : List String} :
    ∀ (cs : List (List String)) (acc : Option (List String) × (Int × Int))
      (c : List String),
      (cs.foldl (tier2_step sp) acc).1 = some c → c ∈ cs ∨ acc.1 = some c := by
  intro cs
  induction cs with
  | nil => intro acc c h; exact Or.inr h
  | cons x cs ih =>
    intro acc c h
    rw [List.foldl_cons] at h
    rcases ih (tier2_step sp acc x) c h with hmem | hacc
    · exact Or.inl (List.mem_cons_of_mem _ hmem)
    · unfold tier2_step at hacc
      split at hacc
      · simp only [Option.some.injEq] at hacc
        exact Or.inl (hacc ▸ List.mem_cons_self _ _)
      · exact Or.inr hacc

/-- Helper: the best score's first component never decreases over the loop. -/
theorem tier2_foldl_score_mono {sp : List String} :
    ∀ (cs : List (List String)) (acc : Option (List String) × (Int × Int)),
      acc.2.1 ≤ (cs.foldl (tier2_step sp) acc).2.1 := by
  intro cs
  induction cs with
  | nil => intro acc; exact le_refl _
  | cons x cs ih =>
    intro acc
    rw [List.foldl_cons]
    refine le_trans ?_ (ih (tier2_step sp acc x))
    unfold tier2_step
    split
    next hgt => exact scoreGtB_fst_le hgt
    next => exact le_refl _

/-- Helper: once the accumulator holds a candidate, the loop keeps holding
one. -/
theorem tier2_foldl_isSome {sp : List String} :
    ∀ (cs : List (List String)) (acc : Option (List String) × (Int × Int)),
      acc.1.isSome = true → ((cs.foldl (tier2_step sp) acc).1).isSome = true := by
  intro cs
  induction cs with
  | nil => intro acc h; exact h
  | cons x cs ih =>
    intro acc h
    rw [List.foldl_cons]
    apply ih
    unfold tier2_step
    split
    · rfl
    · exact h

/-- Helper: two paths ending in the same filename share at least that one
trailing part, so the computed suffix length is at least `1`. -/
theorem common_suffix_len_pos_of_same_name {p q : List String}
    (h : pathName p = pathName q) :
    1 ≤ common_suffix_len (partsOf p) (partsOf q) := by
  unfold common_suffix_len partsOf
  rw [List.reverse_append, List.reverse_append]
  simp only [List.reverse_singleton, List.reverse_reverse, List.singleton_append]
  rw [common_prefix_len, if_pos h]
  exact Nat.le_add_left 1 _

/-- Helper: with a non-empty candidate list all sharing the looked-up
filename, the candidate loop ends with a held candidate and a first score
component of at least `1`. -/
theorem tier2_best_gate {src : List String} {cs : List (List String)}
    (hne : cs ≠ []) (hall : ∀ c ∈ cs, pathName c = pathName src) :
    (0 : Int) < (tier2_best (partsOf src) cs).2.1 ∧
      ((tier2_best (partsOf src) cs).1).isSome = true := by
  cases cs with
  | nil => exact absurd rfl hne
  | cons x cs =>
    have hx : pathName src = pathName x := (hall x (List.mem_cons_self _ _)).symm
    have hsuffix : 1 ≤ common_suffix_len (partsOf src) (partsOf x) :=
      common_suffix_len_pos_of_same_name hx
    have hs1 : (1 : Int) ≤ (tier2_score (partsOf src) x).1 := by
      show (1 : Int) ≤ ((common_suffix_len (partsOf src) (partsOf x) : Nat) : Int)
      exact_mod_cast hsuffix
    have hfirst : tier2_step (partsOf src) (none, (-1, -1)) x
        = (some x, tier2_score (partsOf src) x) := by
      unfold tier2_step
      rw [if_pos ?hc]
      case hc =>
        unfold scoreGtB
        rw [Bool.or_eq_true]
        refine Or.inl (decide_eq_true ?_)
        show (-1 : Int) < (tier2_score (partsOf src) x).1
        omega
    unfold tier2_best
    rw [List.foldl_cons, hfirst]
    constructor
    · have hmono : (tier2_score (partsOf src) x).1 ≤
          (List.foldl (tier2_step (partsOf src))
            (some x, tier2_score (partsOf src) x) cs).2.1 :=
        @tier2_foldl_score_mono (partsOf src) cs
          (some x, tier2_score (partsOf src) x)
      omega
    · exact @tier2_foldl_isSome (partsOf src) cs
        (some x, tier2_score (partsOf src) x) rfl

/-- Helper: every candidate the index returns bears the looked-up name. -/
theorem index_candidates_name {P : DestPlacer} {fn : String} {c : List String}
    (h : c ∈ P.index_candidates fn) : pathName c = fn := by
  unfold DestPlacer.index_candidates at h
  have := (List.mem_filter.mp h).2
  exact of_decide_eq_true this

/-- Helper: a tier-2 result is one of the filename-index candidates. -/
theorem tier2_result_some_mem {P : DestPlacer} {src c : List String}
    (h : tier2_result P src = some c) :
    c ∈ P.index_candidates (pathName src) := by
  unfold tier2_result at h
  split at h
  next best hbest =>
    split at h
    · cases h
      rcases @tier2_foldl_mem (partsOf src) _ _ _ hbest with hmem | habs
      · exact hmem
      · cases habs
    · cases h
  next => cases h

/-- Helper: with tier 1 failing and a non-empty candidate list, tier 2
produces a result. -/
theorem tier2_result_isSome {P : DestPlacer} {src : List String}
    (h2 : P.index_candidates (pathName src) ≠ []) :
    (tier2_result P src).isSome = true := by
  have hall : ∀ c ∈ P.index_candidates (pathName src), pathName c = pathName src :=
    fun c hc => index_candidates_name hc
  obtain ⟨hpos, hsome⟩ := tier2_best_gate h2 hall
  obtain ⟨best, hbest⟩ := Option.isSome_iff_exists.mp hsome
  unfold tier2_result
  rw [hbest]
  show ((if (0 : Int) < (tier2_best (partsOf src)
      (P.index_candidates (pathName src))).2.1 then some best else none)).isSome = true
  rw [if_pos hpos]
  rfl

/-- C2: for every entry list and optional bound pair, the Temporal Selector
returns an entry only if that entry is one of the inputs, its timestamp is
present and satisfies the window, and its timestamp is maximal among all
qualifying timestamps; it returns `none` exactly when no entry qualifies. -/
theorem select_window_sound_and_complete (afterMs beforeMs : Option Int)
    (es : List Entry) :
    (∀ e, select afterMs beforeMs es = some e →
        e ∈ es ∧ ∃ ts, e.timestamp = some ts ∧ inWindow afterMs beforeMs ts = true ∧
          ∀ e' ∈ es, ∀ ts', e'.timestamp = some ts' →
            inWindow afterMs beforeMs ts' = true → ts' ≤ ts) ∧
    (select afterMs beforeMs es = none ↔
        ∀ e ∈ es, ∀ ts, e.timestamp = some ts → inWindow afterMs beforeMs ts = false) := by
  constructor
  · intro e h
    rcases select_some_spec h with ⟨hm, ts, hts, hw, hmax⟩
    exact ⟨hm, ts, hts, hw, hmax⟩
  · exact select_none_iff

/-- Witness for C2 at `afterMs = none`, `beforeMs = some 10`,
`es = [{timestamp := some 3}]`. -/
theorem select_window_sound_and_complete_witness :
    ({ timestamp := some 3 } : Entry) ∈ ([{ timestamp := some 3 }] : List Entry) ∧
    ∃ ts, ({ timestamp := some 3 } : Entry).timestamp = some ts ∧
      inWindow none (some 10) ts = true ∧
      ∀ e' ∈ ([{ timestamp := some 3 }] : List Entry), ∀ ts',
        e'.timestamp = some ts' → inWindow none (some 10) ts' = true → ts' ≤ ts :=
  (select_window_sound_and_complete none (some 10) [{ timestamp := some 3 }]).1
    { timestamp := some 3 } (by decide)

/-- C6: an entry whose timestamp equals `beforeMs` is never selected (the
upper bound is exclusive), while an entry whose timestamp equals `afterMs`
can be selected (the lower bound is inclusive), witnessed at
`afterMs = some 5`. -/
theorem window_upper_exclusive_lower_inclusive :
    (∀ (a : Option Int) (b : Int) (es : List Entry) (e : Entry),
        select a (some b) es = some e → e.timestamp ≠ some b) ∧
    select (some 5) none [{ timestamp := some 5 }] = some { timestamp := some 5 } := by
  constructor
  · intro a b es e h hb
    rcases select_some_spec h with ⟨-, ts, hts, hw, -⟩
    rw [hb] at hts
    cases hts
    unfold inWindow at hw
    rw [Bool.and_eq_true] at hw
    exact absurd (of_decide_eq_true hw.2) (lt_irrefl b)
  · decide

/-- Witness for the universally quantified half of C6, at `a = none`,
`b = 9`, `es = [{timestamp := some 7}]`. -/
theorem window_upper_exclusive_lower_inclusive_witness :
    ({ timestamp := some 7 } : Entry).timestamp ≠ some 9 :=
  window_upper_exclusive_lower_inclusive.1 none 9 [{ timestamp := some 7 }]
    { timestamp := some 7 } (by decide)

/-- C7 counterexample: in the ascending sort of `main` line 225 a missing
timestamp is keyed as `0`, so the entry `{timestamp := none}` sorts BEFORE
the entry `{timestamp := some 5}`, refuting the claim that every
missing-timestamp entry sorts after every present-timestamp entry. -/
theorem missing_timestamp_not_sorted_last :
    ¬ (sortEntries [{ timestamp := some 5 }, { timestamp := none }]).Pairwise
        (fun a b => a.timestamp = none → b.timestamp = none) := by
  decide

/-- C7 amended: the sort orders entries by the key that maps a missing
timestamp to `0` (so such entries sort before any positive timestamp, not
last), and an entry with a missing timestamp is never the selected entry. -/
theorem sort_key_defaults_missing_to_zero (afterMs beforeMs : Option Int)
    (es : List Entry) :
    (sortEntries es).Pairwise entryLE ∧
    (∀ e : Entry, e.timestamp = none → sortKey e = 0) ∧
    (∀ e, select afterMs beforeMs es = some e → e.timestamp ≠ none) := by
  refine ⟨List.sorted_insertionSort entryLE es, ?_, ?_⟩
  · intro e h
    simp [sortKey, h]
  · intro e h hnone
    rcases select_some_spec h with ⟨-, ts, hts, -⟩
    rw [hnone] at hts
    cases hts

/-- Witness for C7's amended statement at `afterMs = none`,
`beforeMs = some 10`, `es = [{timestamp := none}, {timestamp := some 3}]`. -/
theorem sort_key_defaults_missing_to_zero_witness :
    ({ timestamp := some 3 } : Entry).timestamp ≠ none :=
  (sort_key_defaults_missing_to_zero none (some 10)
      [{ timestamp := none }, { timestamp := some 3 }]).2.2
    { timestamp := some 3 } (by decide)

/-- C1 (code bug): with source root `/proj`, destination root `/dest`,
destination files `/dest/f.txt` and `/dest/a/f.txt`, and historical path
`/old/a/f.txt`, `choose_dest` returns `/dest/f.txt` even though
`/dest/a/f.txt` has the deeper common directory suffix with the historical
path (`a/f.txt`, length 2, versus length 1), contradicting both the claim
and the code's own docstring ("deepest matching directory suffix"): the
parts lists of lines 128-129/134-135 hold the parent names nearest-first,
i.e. reversed, so after the filename the loop compares outermost segments
("old" versus "dest"), scores both candidates 1, and the
fewer-segments tie-break picks the shallower file. -/
theorem tier2_reversed_parts_bug :
    DestPlacer.choose_dest
        ⟨["proj"], ["dest"], [["dest", "f.txt"], ["dest", "a", "f.txt"]]⟩
        ["old", "a", "f.txt"] = ["dest", "f.txt"] ∧
    common_suffix_len ["old", "a", "f.txt"] ["dest", "a", "f.txt"] = 2 ∧
    common_suffix_len ["old", "a", "f.txt"] ["dest", "f.txt"] = 1 := by
  decide

/-- C4: for a historical path not under the source root, whenever the
filename index holds at least one candidate, the tier-2 gate
`best_score[0] > 0` passes (every candidate already matches on the filename
segment) and `choose_dest` returns one of the index's candidates, so tiers 3
and 4 are unreachable. -/
theorem choose_dest_tier2_hit (P : DestPlacer) (src : List String)
    (h1 : P.restore_from.isPrefixOf src = false)
    (h2 : P.index_candidates (pathName src) ≠ []) :
    (0 : Int) < (tier2_best (partsOf src) (P.index_candidates (pathName src))).2.1 ∧
    P.choose_dest src ∈ P.index_candidates (pathName src) := by
  have hall : ∀ c ∈ P.index_candidates (pathName src), pathName c = pathName src :=
    fun c hc => index_candidates_name hc
  obtain ⟨hpos, -⟩ := tier2_best_gate h2 hall
  refine ⟨hpos, ?_⟩
  have hres := tier2_result_isSome h2
  obtain ⟨c, hc⟩ := Option.isSome_iff_exists.mp hres
  have : P.choose_dest src = c := by
    unfold DestPlacer.choose_dest
    rw [if_neg (by simp [h1]), hc]
  rw [this]
  exact tier2_result_some_mem hc

/-- Witness for C4: source root `/proj`, destination root `/dest` holding
`/dest/x/f.txt`, historical path `/other/f.txt`. -/
theorem choose_dest_tier2_hit_witness :
    (0 : Int) < (tier2_best (partsOf ["other", "f.txt"])
      (DestPlacer.index_candidates ⟨["proj"], ["dest"], [["dest", "x", "f.txt"]]⟩
        (pathName ["other", "f.txt"]))).2.1 ∧
    DestPlacer.choose_dest ⟨["proj"], ["dest"], [["dest", "x", "f.txt"]]⟩
        ["other", "f.txt"] ∈
      DestPlacer.index_candidates ⟨["proj"], ["dest"], [["dest", "x", "f.txt"]]⟩
        (pathName ["other", "f.txt"]) :=
  choose_dest_tier2_hit ⟨["proj"], ["dest"], [["dest", "x", "f.txt"]]⟩
    ["other", "f.txt"] (by decide) (by decide)

/-- C5: `choose_dest` is a total function (it is defined for every historical
path), and when every file the destination walk produced lies under the
destination root — which `os.walk(restore_to)` guarantees — its result lies
under the destination root too: tier 1 and tiers 3/4 append a relative
remainder to the destination root, and a tier-2 result is one of the walked
files. -/
theorem choose_dest_total_in_dest_tree (P : DestPlacer) (src : List String)
    (hw : ∀ p ∈ P.walkFiles, ∃ r, p = P.restore_to ++ r) :
    ∃ r, P.choose_dest src = P.restore_to ++ r := by
  unfold DestPlacer.choose_dest
  split
  · exact ⟨_, rfl⟩
  · split
    next c hc =>
      exact hw c (List.mem_of_mem_filter (tier2_result_some_mem hc))
    next =>
      unfold tier34
      split
      · split
        · exact ⟨_, rfl⟩
        · exact ⟨_, rfl⟩
      · exact ⟨_, rfl⟩

/-- Witness for C5: source root `/proj`, destination root `/dest`, an empty
destination walk, historical path `/x/f.txt` (handled by tier 4). -/
theorem choose_dest_total_in_dest_tree_witness :
    ∃ r, DestPlacer.choose_dest ⟨["proj"], ["dest"], []⟩ ["x", "f.txt"]
      = ["dest"] ++ r :=
  choose_dest_total_in_dest_tree ⟨["proj"], ["dest"], []⟩ ["x", "f.txt"]
    (fun p hp => absurd hp (List.not_mem_nil p))

/-- C9: for a historical path under the source root, tier 1 returns the
destination root joined with the path's position relative to the source
root, whatever the walked destination files are — the filename index is
irrelevant to the result. -/
theorem choose_dest_direct_remap (f t : List String) (w w' : List (List String))
    (src : List String) (h : f.isPrefixOf src = true) :
    DestPlacer.choose_dest ⟨f, t, w⟩ src = t ++ src.drop f.length ∧
    DestPlacer.choose_dest ⟨f, t, w⟩ src = DestPlacer.choose_dest ⟨f, t, w'⟩ src := by
  constructor
  · unfold DestPlacer.choose_dest
    rw [if_pos (by simp [h])]
  · unfold DestPlacer.choose_dest
    rw [if_pos (by simp [h]), if_pos (by simp [h])]

/-- Witness for C9: source root `/proj`, historical path `/proj/sub/f.txt`,
two different destination walks. -/
theorem choose_dest_direct_remap_witness :
    DestPlacer.choose_dest ⟨["proj"], ["dest"], []⟩ ["proj", "sub", "f.txt"]
      = ["dest"] ++ (["proj", "sub", "f.txt"].drop (["proj"] : List String).length) ∧
    DestPlacer.choose_dest ⟨["proj"], ["dest"], []⟩ ["proj", "sub", "f.txt"]
      = DestPlacer.choose_dest ⟨["proj"], ["dest"], [["dest", "f.txt"]]⟩
          ["proj", "sub", "f.txt"] :=
  choose_dest_direct_remap ["proj"] ["dest"] [] [["dest", "f.txt"]]
    ["proj", "sub", "f.txt"] (by decide)

/-- Helper: every list is a `isPrefixOf`-prefix of itself. -/
theorem isPrefixOf_self (l : List String) : l.isPrefixOf l = true := by
  induction l with
  | nil => rfl
  | cons x xs ih => simp [List.isPrefixOf, ih]

/-- C10: when the historical path is the source root itself, tier 1 applies
with an empty relative remainder (Python's `Path(".")`, which joining
collapses), so `choose_dest` returns the destination root itself. -/
theorem choose_dest_at_source_root (P : DestPlacer) :
    P.choose_dest P.restore_from = P.restore_to := by
  unfold DestPlacer.choose_dest
  rw [if_pos (by simp [isPrefixOf_self]), List.drop_length, List.append_nil]

/-- Helper: what being admitted by lines 201-204 means for a parsed record:
truthy value, both required fields present, non-empty entries. -/
theorem record_admitted_props {d : RecordData} (h : record_admitted d = true) :
    d.falsy = false ∧ d.resource.isSome = true ∧ d.entries.isSome = true ∧
      d.entries.getD [] ≠ [] := by
  obtain ⟨falsy, resource, entries⟩ := d
  cases falsy <;> cases resource <;> cases entries <;>
    simp_all [record_admitted, List.isEmpty_iff]

/-- C8 counterexample: a parsed record with entries but no `resource` field is
malformed in the claim's sense (a required field is missing), and it is
skipped — but with ZERO warnings, refuting the claim that malformed records
are skipped "with a warning": only a JSON parse error warns. -/
theorem missing_fields_skipped_silently :
    (load_history_records
        [RawRecord.parsed ⟨false, none, some [{ timestamp := some 1 }]⟩]).1 = [] ∧
    ¬ (0 < (load_history_records
        [RawRecord.parsed ⟨false, none, some [{ timestamp := some 1 }]⟩]).2) := by
  decide

/-- C8 amended: the loader never aborts (it is a total function); it warns
exactly once per unparseable record and for nothing else — a record with
missing required fields, a falsy value, a missing file, or an empty entries
list is skipped silently — and every loaded record is truthy, carries both
required fields, and has a non-empty entries list. -/
theorem loader_warning_and_admission (rs : List RawRecord) :
    (load_history_records rs).2 = rs.countP is_parse_error ∧
    ∀ d ∈ (load_history_records rs).1,
      d.falsy = false ∧ d.resource.isSome = true ∧ d.entries.isSome = true ∧
        d.entries.getD [] ≠ [] := by
  induction rs with
  | nil => exact ⟨rfl, by intro d hd; cases hd⟩
  | cons r rs ih =>
    rcases ih with ⟨ih1, ih2⟩
    cases r with
    | notFound =>
      refine ⟨?_, ?_⟩
      · simp only [load_history_records, List.countP_cons, is_parse_error]
        simp [ih1]
      · simp only [load_history_records]
        exact ih2
    | parseError =>
      refine ⟨?_, ?_⟩
      · simp only [load_history_records, List.countP_cons, is_parse_error]
        simp [ih1]
      · simp only [load_history_records]
        exact ih2
    | parsed d =>
      by_cases hadm : record_admitted d = true
      · refine ⟨?_, ?_⟩
        · simp only [load_history_records, List.countP_cons, is_parse_error, hadm]
          simp [ih1]
        · simp only [load_history_records, hadm, if_true]
          intro d' hd'
          rcases List.mem_cons.mp hd' with rfl | hd'
          · exact record_admitted_props hadm
          · exact ih2 d' hd'
      · have hadm' : record_admitted d = false := Bool.eq_false_iff.mpr hadm
        refine ⟨?_, ?_⟩
        · simp only [load_history_records, List.countP_cons, is_parse_error, hadm']
          simp [ih1]
        · simp only [load_history_records, hadm']
          simp only [if_false, Bool.false_eq_true]
          exact ih2

/-- Witness for C8's amended statement on a list holding one unparseable
record and one well-formed record. -/
theorem loader_warning_and_admission_witness :
    (load_history_records [RawRecord.parseError,
        RawRecord.parsed ⟨false, some "r", some [{ timestamp := some 1 }]⟩]).2
      = List.countP is_parse_error [RawRecord.parseError,
        RawRecord.parsed ⟨false, some "r", some [{ timestamp := some 1 }]⟩] ∧
    (⟨false, some "r", some [{ timestamp := some 1 }]⟩ : RecordData).falsy = false ∧
    (⟨false, some "r", some [{ timestamp := some 1 }]⟩ : RecordData).resource.isSome = true ∧
    (⟨false, some "r", some [{ timestamp := some 1 }]⟩ : RecordData).entries.isSome = true ∧
    (⟨false, some "r", some [{ timestamp := some 1 }]⟩ : RecordData).entries.getD [] ≠ [] :=
  ⟨(loader_warning_and_admission [RawRecord.parseError,
      RawRecord.parsed ⟨false, some "r", some [{ timestamp := some 1 }]⟩]).1,
   (loader_warning_and_admission [RawRecord.parseError,
      RawRecord.parsed ⟨false, some "r", some [{ timestamp := some 1 }]⟩]).2
     ⟨false, some "r", some [{ timestamp := some 1 }]⟩ (by decide)⟩

/-- C3 counterexample: in dry-run mode the per-file loop still performs a
filesystem mutation: line 262 `dest_path.parent.mkdir(parents=True,
exist_ok=True)` runs before the `if not args.dry_run` guard, so the dry-run
pass over one file under the source root creates the destination parent
directory `/dest/sub`, refuting "performs no filesystem mutation (in
particular, no directories are created)". -/
theorem dry_run_creates_parent_dirs :
    (run_pass true ⟨["proj"], ["dest"], []⟩ none (some 10)
        [(["proj", "sub", "f.txt"], [{ timestamp := some 5 }], "hi")]).1
      = [FsEffect.mkdirP ["dest", "sub"]] ∧
    (run_pass true ⟨["proj"], ["dest"], []⟩ none (some 10)
        [(["proj", "sub", "f.txt"], [{ timestamp := some 5 }], "hi")]).1 ≠ [] := by
  decide

/-- C3 amended: a dry-run pass reports exactly the same per-file destination
paths as a normal pass over the same inputs and writes no file contents, but
it is not mutation-free: it still creates the parent directory of every
computed destination (and `main` line 185 creates the destination root
unconditionally at startup). -/
theorem dry_run_reports_match_and_no_writes (P : DestPlacer) (a b : Option Int)
    (items : List (List String × List Entry × String)) :
    (run_pass true P a b items).2.map Report.dest
      = (run_pass false P a b items).2.map Report.dest ∧
    ∀ e ∈ (run_pass true P a b items).1, e.isWrite = false := by
  induction items with
  | nil => exact ⟨rfl, by intro e he; cases he⟩
  | cons it items ih =>
    rcases ih with ⟨ih1, ih2⟩
    cases hsel : select a b it.2.1 with
    | none =>
      simp only [run_pass, hsel]
      exact ⟨ih1, ih2⟩
    | some e =>
      simp only [run_pass, hsel]
      constructor
      · simp only [place_one, List.map_cons]
        rw [ih1]
      · intro ef hef
        simp only [place_one, if_true, List.nil_append] at hef
        rcases List.mem_cons.mp hef with rfl | hef'
        · rfl
        · exact ih2 ef hef'

/-- Witness for C3's amended statement on one file under the source root. -/
theorem dry_run_reports_match_and_no_writes_witness :
    (run_pass true ⟨["proj"], ["dest"], []⟩ none (some 10)
        [(["proj", "sub", "f.txt"], [{ timestamp := some 5 }], "hi")]).2.map Report.dest
      = (run_pass false ⟨["proj"], ["dest"], []⟩ none (some 10)
        [(["proj", "sub", "f.txt"], [{ timestamp := some 5 }], "hi")]).2.map Report.dest ∧
    (FsEffect.mkdirP ["dest", "sub"]).isWrite = false :=
  ⟨(dry_run_reports_match_and_no_writes ⟨["proj"], ["dest"], []⟩ none (some 10)
      [(["proj", "sub", "f.txt"], [{ timestamp := some 5 }], "hi")]).1,
   (dry_run_reports_match_and_no_writes ⟨["proj"], ["dest"], []⟩ none (some 10)
      [(["proj", "sub", "f.txt"], [{ timestamp := some 5 }], "hi")]).2
     (FsEffect.mkdirP ["dest", "sub"]) (by decide)⟩
